import Mathlib

/-!
Verification of the simulation engine of the LifeScript repository
(src/Financial/financial_sym_gui.py, the latest revision of the core).

Modelling conventions:
* Python floats are idealised as exact real numbers; the fractional power
  used by the effective monthly rate is Real.rpow.
* A Python dict is embedded as an insertion-ordered association list; the
  engine never adds or removes keys, so key order and uniqueness are
  preserved exactly as in the source.
* Mutation of an Account object in place becomes functional update of the
  entry (entries with the matching key) in the association list, which is
  what in-place mutation of the shared object amounts to observably.
* The snapshot dict built by run, keyed by "Month", the account names and
  "Total", is embedded as a record with a month field, an ordered list of
  per-account entries and a total field.
* FinancialSimulation.__init__ stores the accounts mapping and the event
  list it is given without copying (self.accounts = accounts), so the
  caller's mapping and the engine's accounts field denote the same dict;
  after run, the caller's mapping is the accounts field of the resulting
  state.
-/

structure Account where
  name : String
  balance : ℝ
  annual_return : ℝ
  monthly_contribution : ℝ := 0

/-- Effective monthly rate: (1 + annual_return) ** (1 / 12) - 1. -/
noncomputable def Account.monthly_return (a : Account) : ℝ :=
  (1 + a.annual_return) ^ ((1 : ℝ) / 12) - 1

/-- self.balance *= (1 + self.monthly_return()). -/
noncomputable def Account.apply_growth (a : Account) : Account :=
  { a with balance := a.balance * (1 + a.monthly_return) }

/-- self.balance += amount. -/
def Account.deposit (a : Account) (amount : ℝ) : Account :=
  { a with balance := a.balance + amount }

/-- self.balance -= amount. -/
def Account.withdraw (a : Account) (amount : ℝ) : Account :=
  { a with balance := a.balance - amount }

structure Event where
  month : Int
  type : String
  account : String
  amount : ℝ := 0
  new_apy : ℝ := 0

/-- The accounts dict, name -> Account, as an insertion-ordered list. -/
abbrev AccMap := List (String × Account)

/-- The keys of the accounts dict. -/
def keys (accs : AccMap) : List String := accs.map Prod.fst

/-- In-place mutation of the account object stored under key k:
every entry whose key is k (in a Python dict, the unique one) is updated. -/
def updateAccount (accs : AccMap) (k : String) (f : Account → Account) : AccMap :=
  accs.map (fun p => if p.1 == k then (p.1, f p.2) else p)

/-- The body of the event loop for one event whose month matched:
acc = self.accounts.get(event.account); if not acc: continue;
then dispatch on event.type, unknown types falling through silently. -/
def applyEvent (accs : AccMap) (e : Event) : AccMap :=
  match List.lookup e.account accs with
  | none => accs
  | some _ =>
      if e.type == "deposit" then
        updateAccount accs e.account (fun a => a.deposit e.amount)
      else if e.type == "expense" then
        updateAccount accs e.account (fun a => a.withdraw e.amount)
      else if e.type == "apy_change" then
        updateAccount accs e.account (fun a => { a with annual_return := e.new_apy })
      else accs

/-- The event pass of one month: iterate the event list in its given
order, applying those whose month field equals the current month. -/
def eventPass (accs : AccMap) (events : List Event) (month : Int) : AccMap :=
  events.foldl (fun a e => if e.month = month then applyEvent a e else a) accs

/-- The growth-pass body for one account: if acc.monthly_contribution > 0
then acc.deposit(acc.monthly_contribution); acc.apply_growth(). -/
noncomputable def growAccount (a : Account) : Account :=
  (if a.monthly_contribution > 0 then a.deposit a.monthly_contribution else a).apply_growth

/-- The growth pass of one month: for acc in self.accounts.values(). -/
noncomputable def growthPass (accs : AccMap) : AccMap :=
  accs.map (fun p => (p.1, growAccount p.2))

/-- round(x, 2): rounding to two decimal places. -/
noncomputable def round2 (x : ℝ) : ℝ := ((round (x * 100) : ℤ) : ℝ) / 100

/-- The snapshot dict: "Month", one rounded entry per account name, and
"Total", the sum of the unrounded balances rounded once. -/
structure Snap where
  month : Int
  entries : List (String × ℝ)
  total : ℝ

/-- The snapshot pass of one month. -/
noncomputable def mkSnapshot (month : Int) (accs : AccMap) : Snap :=
  { month := month
    entries := accs.map (fun p => (p.1, round2 p.2.balance))
    total := round2 ((accs.map (fun p => p.2.balance)).sum) }

/-- The body of run, iterated over the remaining month numbers: event
pass, growth pass, snapshot appended to history. Returns the final
accounts state and the final history. -/
noncomputable def runMonths (events : List Event) :
    AccMap → List Snap → List Int → AccMap × List Snap
  | accs, hist, [] => (accs, hist)
  | accs, hist, m :: ms =>
      let accs2 := growthPass (eventPass accs events m)
      runMonths events accs2 (hist ++ [mkSnapshot m accs2]) ms

/-- range(1, months + 1): the month numbers 1..months, empty when
months <= 0. -/
def monthList (months : Int) : List Int :=
  (List.range months.toNat).map (fun (i : ℕ) => ((i : Int) + 1))

structure FinancialSimulation where
  accounts : AccMap
  months : Int
  events : List Event
  history : List Snap

/-- FinancialSimulation.__init__: stores the given accounts mapping and
event list without copying and starts with an empty history. -/
def mkSim (accounts : AccMap) (months : Int) (events : List Event) :
    FinancialSimulation :=
  { accounts := accounts, months := months, events := events, history := [] }

/-- FinancialSimulation.run: the month loop; returns the mutated engine
state together with the returned history. -/
noncomputable def FinancialSimulation.run (sim : FinancialSimulation) :
    FinancialSimulation × List Snap :=
  let p := runMonths sim.events sim.accounts sim.history (monthList sim.months)
  ({ sim with accounts := p.1, history := p.2 }, p.2)

/-- The engine's current account state after the first k simulated months:
the accounts component left by the month loop run over the first k month
numbers (each iteration being that month's event pass followed by its
growth pass).  For 1 <= k <= months this is exactly the state from which
month k's snapshot is built. -/
noncomputable def accountsAfter (accounts : AccMap) (events : List Event)
    (months : Int) (k : ℕ) : AccMap :=
  (runMonths events accounts [] ((monthList months).take k)).1

/-! ### Association-list helper lemmas -/

theorem lookup_updateAccount (accs : AccMap) (k name : String)
    (f : Account → Account) :
    List.lookup name (updateAccount accs k f) =
      (List.lookup name accs).map (fun a => if name = k then f a else a) := by
  induction accs with
  | nil => rfl
  | cons p t ih =>
    obtain ⟨k', a⟩ := p
    simp only [updateAccount, List.map_cons] at *
    by_cases hk : k' = k
    · subst hk
      simp only [beq_self_eq_true, if_true, List.lookup_cons]
      cases hb : name == k'
      · exact ih
      · have hn : name = k' := by simpa using hb
        simp [hn]
    · have hkb : (k' == k) = false := by simpa using hk
      simp only [hkb, Bool.false_eq_true, if_false, List.lookup_cons]
      cases hb : name == k'
      · exact ih
      · have hn : name = k' := by simpa using hb
        simp [hn, hk]

theorem lookup_map_value {β γ : Type} (accs : List (String × β)) (name : String)
    (g : β → γ) :
    List.lookup name (accs.map (fun p => (p.1, g p.2))) =
      (List.lookup name accs).map g := by
  induction accs with
  | nil => rfl
  | cons p t ih =>
    obtain ⟨k', a⟩ := p
    simp only [List.map_cons, List.lookup_cons]
    cases hb : name == k'
    · exact ih
    · rfl

theorem keys_updateAccount (accs : AccMap) (k : String) (f : Account → Account) :
    keys (updateAccount accs k f) = keys accs := by
  induction accs with
  | nil => rfl
  | cons p t ih =>
    have hfst : (if p.1 == k then (p.1, f p.2) else p).1 = p.1 := by
      cases p.1 == k <;> rfl
    simp only [keys, updateAccount, List.map_cons] at *
    rw [hfst, ih]

theorem keys_applyEvent (accs : AccMap) (e : Event) :
    keys (applyEvent accs e) = keys accs := by
  unfold applyEvent
  cases List.lookup e.account accs
  · rfl
  · split_ifs <;> simp [keys_updateAccount]

theorem keys_eventPass (accs : AccMap) (events : List Event) (m : Int) :
    keys (eventPass accs events m) = keys accs := by
  induction events generalizing accs with
  | nil => rfl
  | cons e es ih =>
    show keys (eventPass (if e.month = m then applyEvent accs e else accs) es m) = _
    rw [ih]
    split_ifs <;> simp [keys_applyEvent]

theorem keys_growthPass (accs : AccMap) :
    keys (growthPass accs) = keys accs := by
  induction accs with
  | nil => rfl
  | cons p t ih =>
    simp only [keys, growthPass, List.map_cons] at *
    rw [ih]

theorem lookup_eq_none_of_not_mem_keys (accs : AccMap) (name : String)
    (h : name ∉ keys accs) : List.lookup name accs = none := by
  induction accs with
  | nil => rfl
  | cons p t ih =>
    simp only [keys, List.map_cons, List.mem_cons, not_or] at h
    have hb : (name == p.1) = false := by simpa using h.1
    obtain ⟨k', a⟩ := p
    rw [List.lookup_cons]
    simp only [hb]
    exact ih h.2

theorem applyEvent_of_lookup_none (accs : AccMap) (e : Event)
    (h : List.lookup e.account accs = none) : applyEvent accs e = accs := by
  unfold applyEvent
  rw [h]

theorem lookup_applyEvent_ne (accs : AccMap) (e : Event) (name : String)
    (h : e.account ≠ name) :
    List.lookup name (applyEvent accs e) = List.lookup name accs := by
  have hne : ¬ name = e.account := fun hh => h hh.symm
  unfold applyEvent
  cases List.lookup e.account accs
  · rfl
  · split_ifs <;> simp [lookup_updateAccount, hne]

theorem eventPass_nil (accs : AccMap) (m : Int) : eventPass accs [] m = accs := rfl

theorem eventPass_cons (accs : AccMap) (e : Event) (es : List Event) (m : Int) :
    eventPass accs (e :: es) m =
      eventPass (if e.month = m then applyEvent accs e else accs) es m := rfl

theorem eventPass_append (accs : AccMap) (l₁ l₂ : List Event) (m : Int) :
    eventPass accs (l₁ ++ l₂) m = eventPass (eventPass accs l₁ m) l₂ m := by
  unfold eventPass
  exact List.foldl_append ..

theorem lookup_eventPass_ne (accs : AccMap) (events : List Event) (m : Int)
    (name : String) (h : ∀ e ∈ events, e.account ≠ name) :
    List.lookup name (eventPass accs events m) = List.lookup name accs := by
  induction events generalizing accs with
  | nil => rfl
  | cons e es ih =>
    rw [eventPass_cons, ih _ (fun e' he' => h e' (List.mem_cons_of_mem _ he'))]
    split_ifs
    · exact lookup_applyEvent_ne _ _ _ (h e (List.mem_cons_self _ _))
    · rfl

theorem lookup_growthPass (accs : AccMap) (name : String) :
    List.lookup name (growthPass accs) = (List.lookup name accs).map growAccount :=
  lookup_map_value accs name growAccount

theorem runMonths_nil (events : List Event) (accs : AccMap) (hist : List Snap) :
    runMonths events accs hist [] = (accs, hist) := rfl

theorem runMonths_cons (events : List Event) (accs : AccMap) (hist : List Snap)
    (m : Int) (ms : List Int) :
    runMonths events accs hist (m :: ms) =
      runMonths events (growthPass (eventPass accs events m))
        (hist ++ [mkSnapshot m (growthPass (eventPass accs events m))]) ms := rfl

theorem runMonths_hist_append (events : List Event) (ms : List Int) :
    ∀ (accs : AccMap) (hist : List Snap),
      runMonths events accs hist ms =
        ((runMonths events accs [] ms).1, hist ++ (runMonths events accs [] ms).2) := by
  induction ms with
  | nil => intro accs hist; simp [runMonths_nil]
  | cons m ms ih =>
    intro accs hist
    rw [runMonths_cons, runMonths_cons events accs []]
    rw [ih, ih (growthPass (eventPass accs events m))
      ([] ++ [mkSnapshot m (growthPass (eventPass accs events m))])]
    simp

theorem runMonths_map_month (events : List Event) (ms : List Int) :
    ∀ (accs : AccMap) (hist : List Snap),
      ((runMonths events accs hist ms).2).map Snap.month = hist.map Snap.month ++ ms := by
  induction ms with
  | nil => intro accs hist; simp [runMonths_nil]
  | cons m ms ih =>
    intro accs hist
    rw [runMonths_cons, ih]
    simp [mkSnapshot]

theorem runMonths_fst_hist (events : List Event) (ms : List Int)
    (accs : AccMap) (hist : List Snap) :
    (runMonths events accs hist ms).1 = (runMonths events accs [] ms).1 := by
  rw [runMonths_hist_append]

theorem runMonths_snd_length (events : List Event) (ms : List Int)
    (accs : AccMap) :
    ((runMonths events accs [] ms).2).length = ms.length := by
  have h := congrArg List.length (runMonths_map_month events ms accs [])
  rw [List.length_map] at h
  simpa using h

theorem runMonths_getElem (events : List Event) :
    ∀ (ms : List Int) (i : ℕ) (accs : AccMap) (hi : i < ms.length),
      ((runMonths events accs [] ms).2)[i]? =
        some (mkSnapshot ms[i] ((runMonths events accs [] (ms.take (i + 1))).1)) := by
  intro ms
  induction ms with
  | nil => intro i accs hi; simp at hi
  | cons m ms ih =>
    intro i accs hi
    have hout : (runMonths events accs [] (m :: ms)).2 =
        mkSnapshot m (growthPass (eventPass accs events m)) ::
          (runMonths events (growthPass (eventPass accs events m)) [] ms).2 := by
      rw [runMonths_cons, runMonths_hist_append]
      rfl
    cases i with
    | zero =>
      rw [hout, List.getElem?_cons_zero]
      rfl
    | succ j =>
      rw [hout]
      have hj : j < ms.length := by simpa using hi
      rw [List.getElem?_cons_succ, ih j _ hj]
      have hr : (runMonths events accs [] ((m :: ms).take (j + 1 + 1))).1 =
          (runMonths events (growthPass (eventPass accs events m)) []
            (ms.take (j + 1))).1 := by
        show (runMonths events accs [] (m :: ms.take (j + 1))).1 = _
        rw [runMonths_cons, runMonths_fst_hist]
      rw [hr]
      rfl

theorem monthList_getElem (months : Int) (i : ℕ)
    (hi : i < (monthList months).length) :
    (monthList months)[i] = (i : Int) + 1 := by
  simp [monthList] at hi ⊢

theorem eventPass_skip (es₁ es₂ : List Event) (e : Event) (m : Int)
    (accs : AccMap) (h : e.account ∉ keys accs) :
    eventPass accs (es₁ ++ e :: es₂) m = eventPass accs (es₁ ++ es₂) m := by
  rw [eventPass_append, eventPass_append, eventPass_cons]
  have hnone : List.lookup e.account (eventPass accs es₁ m) = none :=
    lookup_eq_none_of_not_mem_keys _ _ (by rw [keys_eventPass]; exact h)
  rw [applyEvent_of_lookup_none _ _ hnone]
  simp

theorem runMonths_skip (e : Event) (es₁ es₂ : List Event) (ms : List Int) :
    ∀ (accs : AccMap) (hist : List Snap), e.account ∉ keys accs →
      runMonths (es₁ ++ e :: es₂) accs hist ms =
        runMonths (es₁ ++ es₂) accs hist ms := by
  induction ms with
  | nil => intros; rfl
  | cons m ms ih =>
    intro accs hist h
    rw [runMonths_cons, runMonths_cons, eventPass_skip es₁ es₂ e m accs h]
    exact ih _ _ (by rw [keys_growthPass, keys_eventPass]; exact h)

theorem growAccount_no_contribution (a : Account) (h : a.monthly_contribution ≤ 0) :
    growAccount a = a.apply_growth := by
  unfold growAccount
  rw [if_neg (not_lt.mpr h)]

theorem growAccount_eq_monthly_factor (a : Account) (hc : a.monthly_contribution = 0) :
    growAccount a =
      { a with balance := a.balance * ((1 + a.annual_return) ^ ((1 : ℝ) / 12)) } := by
  rw [growAccount_no_contribution a (le_of_eq hc)]
  unfold Account.apply_growth Account.monthly_return
  congr 1
  ring

theorem lookup_runMonths_untouched (events : List Event) (name : String)
    (hev : ∀ e ∈ events, e.account ≠ name) (ms : List Int) :
    ∀ (accs : AccMap) (hist : List Snap) (a : Account),
      List.lookup name accs = some a → a.monthly_contribution = 0 →
      List.lookup name (runMonths events accs hist ms).1 =
        some { a with balance :=
          a.balance * ((1 + a.annual_return) ^ ((1 : ℝ) / 12)) ^ ms.length } := by
  induction ms with
  | nil =>
    intro accs hist a ha hc
    simpa [runMonths_nil] using ha
  | cons m ms ih =>
    intro accs hist a ha hc
    rw [runMonths_cons]
    have h1 : List.lookup name (eventPass accs events m) = some a := by
      rw [lookup_eventPass_ne accs events m name hev]; exact ha
    have h2 : List.lookup name (growthPass (eventPass accs events m)) =
        some (growAccount a) := by
      rw [lookup_growthPass, h1]; rfl
    rw [growAccount_eq_monthly_factor a hc] at h2
    rw [ih _ _ _ h2 hc]
    congr 2
    simp [pow_succ]
    ring

/-! ### Concrete fixtures used by witnesses and counterexamples -/

/-- A concrete account with zero rate and no monthly contribution. -/
noncomputable def acct0 : Account :=
  { name := "A", balance := 100, annual_return := 0, monthly_contribution := 0 }

/-- A concrete account with zero rate and a monthly contribution of 10. -/
noncomputable def acct10 : Account :=
  { name := "A", balance := 100, annual_return := 0, monthly_contribution := 10 }

/-- A concrete account with zero rate and a negative monthly contribution. -/
noncomputable def acctNeg : Account :=
  { name := "A", balance := 100, annual_return := 0, monthly_contribution := -5 }

theorem run_eval_acct10 :
    ((mkSim [("A", acct10)] 1 []).run).1.accounts =
      [("A", { name := "A", balance := 110, annual_return := 0,
               monthly_contribution := 10 })] := by
  simp [mkSim, FinancialSimulation.run, monthList, List.range, List.range.loop,
    runMonths, eventPass, growthPass, growAccount, acct10,
    Account.deposit, Account.apply_growth, Account.monthly_return]
  norm_num [Real.one_rpow]

/-! ### The claims -/

/-- C1 counterexample: the constructor stores the caller's account mapping
without copying (self.accounts = accounts), so the caller's mapping is the
engine's accounts field; at the concrete input of one account with balance
100, rate 0 and monthly contribution 10, one month and no events, run()
leaves that shared mapping holding balance 110, not the original 100 — the
caller's account mapping is mutated. -/
theorem c1_run_mutates_callers_accounts :
    ((mkSim [("A", acct10)] 1 []).run).1.accounts ≠ [("A", acct10)] := by
  rw [run_eval_acct10]
  intro h
  simp only [acct10, List.cons.injEq, Prod.mk.injEq, Account.mk.injEq] at h
  norm_num at h

/-- C1 (amended): run() never mutates the caller's event list or the month
count: the engine state after run() carries the event list and month count
it was constructed with, unchanged.  The account mapping, by contrast, is
aliased by the constructor rather than copied, and run() mutates the
accounts held in it; the collaborator's originals survive only because the
GUI layer passes a deep copy into the constructor. -/
theorem c1_amended_events_and_months_preserved (accounts : AccMap)
    (months : Int) (events : List Event) :
    ((mkSim accounts months events).run).1.events = events ∧
    ((mkSim accounts months events).run).1.months = months :=
  ⟨rfl, rfl⟩

/-- C2: for an account that no event references and whose monthly
contribution is 0, running the simulation for n months multiplies its
balance by exactly (1 + annual_return) ^ (n / 12): monthly_return() is the
effective-rate conversion (1 + annual_return) ^ (1 / 12) - 1 and
apply_growth multiplies the balance by (1 + monthly_return()) once per
month.  The hypothesis 0 <= 1 + annual_return keeps the real power defined
(Python float power of a negative base would leave the reals).  The exact
equality proved here implies the claim's agreement within rounding. -/
theorem c2_growth_closed_form (accounts : AccMap) (events : List Event)
    (n : ℕ) (name : String) (a : Account)
    (ha : List.lookup name accounts = some a)
    (hev : ∀ e ∈ events, e.account ≠ name)
    (hc : a.monthly_contribution = 0)
    (hr : 0 ≤ 1 + a.annual_return) :
    List.lookup name ((mkSim accounts (n : Int) events).run).1.accounts =
      some { a with balance :=
        a.balance * (1 + a.annual_return) ^ ((n : ℝ) / 12) } := by
  have hlen : (monthList (n : Int)).length = n := by
    simp only [monthList]
    rw [List.length_map, List.length_range, Int.toNat_natCast]
  have hkey := lookup_runMonths_untouched events name hev
    (monthList (n : Int)) accounts [] a ha hc
  rw [hlen] at hkey
  have hrun : ((mkSim accounts (n : Int) events).run).1.accounts =
      (runMonths events accounts [] (monthList (n : Int))).1 := rfl
  rw [hrun, hkey]
  have hx : ((1 + a.annual_return) ^ ((1 : ℝ) / 12)) ^ n =
      (1 + a.annual_return) ^ ((n : ℝ) / 12) := by
    rw [← Real.rpow_natCast ((1 + a.annual_return) ^ ((1 : ℝ) / 12)) n,
      ← Real.rpow_mul hr]
    congr 1
    ring
  rw [hx]

/-- C2 witness: the closed-form growth theorem applied to one concrete
account with balance 100, rate 0 and no contribution over 2 months. -/
theorem c2_growth_closed_form_witness :
    List.lookup "A" [("A", acct0)] = some acct0 ∧
    (∀ e ∈ ([] : List Event), e.account ≠ "A") ∧
    acct0.monthly_contribution = 0 ∧
    (0 : ℝ) ≤ 1 + acct0.annual_return ∧
    List.lookup "A" ((mkSim [("A", acct0)] ((2 : ℕ) : Int) []).run).1.accounts =
      some { acct0 with balance :=
        acct0.balance * (1 + acct0.annual_return) ^ (((2 : ℕ) : ℝ) / 12) } :=
  ⟨rfl, by simp, rfl, by norm_num [acct0],
    c2_growth_closed_form [("A", acct0)] [] 2 "A" acct0 rfl (by simp) rfl
      (by norm_num [acct0])⟩

theorem applyEvent_apy_change (accs : AccMap) (m : Int) (name : String) (r : ℝ)
    (a : Account) (ha : List.lookup name accs = some a) :
    applyEvent accs { month := m, type := "apy_change", account := name, new_apy := r } =
      updateAccount accs name (fun x => { x with annual_return := r }) := by
  unfold applyEvent
  dsimp only
  rw [ha]
  simp

/-- C3: the event pass folds over the event list in its given order (so
the events of an appended list are applied after those of the first part,
with no reordering), and for two apy_change events for the same account in
the same month the annual_return entering that month's growth pass is the
new_apy of the later event in list order: after the event pass the account
carries the second rate, and the growth pass grows it with that rate. -/
theorem c3_events_in_list_order_last_apy_change_wins :
    (∀ (accs : AccMap) (l₁ l₂ : List Event) (m : Int),
      eventPass accs (l₁ ++ l₂) m = eventPass (eventPass accs l₁ m) l₂ m) ∧
    (∀ (accs : AccMap) (name : String) (a : Account) (m : Int) (r₁ r₂ : ℝ),
      List.lookup name accs = some a →
      List.lookup name (eventPass accs
          [{ month := m, type := "apy_change", account := name, new_apy := r₁ },
           { month := m, type := "apy_change", account := name, new_apy := r₂ }] m) =
        some { a with annual_return := r₂ } ∧
      List.lookup name (growthPass (eventPass accs
          [{ month := m, type := "apy_change", account := name, new_apy := r₁ },
           { month := m, type := "apy_change", account := name, new_apy := r₂ }] m)) =
        some (growAccount { a with annual_return := r₂ })) := by
  constructor
  · exact eventPass_append
  · intro accs name a m r₁ r₂ ha
    have hpass : List.lookup name (eventPass accs
        [{ month := m, type := "apy_change", account := name, new_apy := r₁ },
         { month := m, type := "apy_change", account := name, new_apy := r₂ }] m) =
        some { a with annual_return := r₂ } := by
      rw [eventPass_cons, if_pos rfl, eventPass_cons, if_pos rfl, eventPass_nil]
      rw [applyEvent_apy_change accs m name r₁ a ha]
      have h1 : List.lookup name
          (updateAccount accs name (fun x => { x with annual_return := r₁ })) =
          some { a with annual_return := r₁ } := by
        rw [lookup_updateAccount, ha]
        simp
      rw [applyEvent_apy_change _ m name r₂ _ h1, lookup_updateAccount, h1]
      simp
    exact ⟨hpass, by rw [lookup_growthPass, hpass]; rfl⟩

/-- C3 witness: the order theorem applied at a concrete account and the
two concrete apy_change rates 0.05 and 0.10 in month 1; the rate entering
the growth pass is the later one, 0.10. -/
theorem c3_events_in_list_order_last_apy_change_wins_witness :
    List.lookup "A" [("A", acct0)] = some acct0 ∧
    List.lookup "A" (eventPass [("A", acct0)]
        [{ month := 1, type := "apy_change", account := "A", new_apy := 0.05 },
         { month := 1, type := "apy_change", account := "A", new_apy := 0.10 }] 1) =
      some { acct0 with annual_return := 0.10 } :=
  ⟨rfl, (c3_events_in_list_order_last_apy_change_wins.2
    [("A", acct0)] "A" acct0 1 0.05 0.10 rfl).1⟩

/-- C4: in the growth pass, an account with a positive
monthly_contribution receives the deposit before apply_growth is called,
so the contribution itself earns that month's growth: the balance after
the growth pass is (balance_before + monthly_contribution) multiplied by
(1 + monthly_return()). -/
theorem c4_contribution_deposited_before_growth (accs : AccMap)
    (name : String) (a : Account) (ha : List.lookup name accs = some a)
    (hpos : 0 < a.monthly_contribution) :
    List.lookup name (growthPass accs) =
      some { a with balance :=
        (a.balance + a.monthly_contribution) * (1 + a.monthly_return) } := by
  rw [lookup_growthPass, ha]
  have : growAccount a = { a with balance :=
      (a.balance + a.monthly_contribution) * (1 + a.monthly_return) } := by
    unfold growAccount
    rw [if_pos hpos]
    rfl
  rw [Option.map_some', this]

/-- C4 witness: the growth-pass theorem at a concrete account with
balance 100 and monthly contribution 10. -/
theorem c4_contribution_deposited_before_growth_witness :
    List.lookup "A" [("A", acct10)] = some acct10 ∧
    (0 : ℝ) < acct10.monthly_contribution ∧
    List.lookup "A" (growthPass [("A", acct10)]) =
      some { acct10 with balance :=
        (acct10.balance + acct10.monthly_contribution) * (1 + acct10.monthly_return) } :=
  ⟨rfl, by norm_num [acct10],
    c4_contribution_deposited_before_growth [("A", acct10)] "A" acct10 rfl
      (by norm_num [acct10])⟩

/-- C5: the i-th snapshot produced by run() (0-based i, so the snapshot
of month i+1) is exactly the snapshot-pass record built from the account
state current after month i+1's event and growth passes: its month field
is the current month number i+1, its entries map each account name to the
round2 of that account's current balance, and its total field is the sum
of the current unrounded account balances rounded once at the end — not
the sum of the already-rounded per-account figures. -/
theorem c5_snapshot_fields (accounts : AccMap) (months : Int)
    (events : List Event) (i : ℕ)
    (hi : i < ((mkSim accounts months events).run).2.length) :
    ((mkSim accounts months events).run).2[i]? =
      some (mkSnapshot ((i : Int) + 1) (accountsAfter accounts events months (i + 1))) ∧
    (mkSnapshot ((i : Int) + 1) (accountsAfter accounts events months (i + 1))).month =
      (i : Int) + 1 ∧
    (∀ (name : String) (a : Account),
      List.lookup name (accountsAfter accounts events months (i + 1)) = some a →
      List.lookup name
          (mkSnapshot ((i : Int) + 1)
            (accountsAfter accounts events months (i + 1))).entries =
        some (round2 a.balance)) ∧
    (mkSnapshot ((i : Int) + 1) (accountsAfter accounts events months (i + 1))).total =
      round2 (((accountsAfter accounts events months (i + 1)).map
        (fun p => p.2.balance)).sum) := by
  have hrun : ((mkSim accounts months events).run).2 =
      (runMonths events accounts [] (monthList months)).2 := rfl
  have hlen : i < (monthList months).length := by
    rw [hrun, runMonths_snd_length] at hi
    exact hi
  have hget := runMonths_getElem events (monthList months) i accounts hlen
  rw [monthList_getElem months i hlen] at hget
  refine ⟨?_, rfl, ?_, rfl⟩
  · rw [hrun, hget]
    rfl
  · intro name a ha
    have h2 := lookup_map_value (accountsAfter accounts events months (i + 1)) name
      (fun b : Account => round2 b.balance)
    rw [ha] at h2
    simpa [mkSnapshot] using h2

/-- C5 witness: the snapshot-contents theorem at the first (and only)
snapshot of a concrete one-month run. -/
theorem c5_snapshot_fields_witness :
    0 < ((mkSim [("A", acct0)] 1 []).run).2.length ∧
    ((mkSim [("A", acct0)] 1 []).run).2[0]? =
      some (mkSnapshot (((0 : ℕ) : Int) + 1)
        (accountsAfter [("A", acct0)] [] 1 (0 + 1))) := by
  have hout : ((mkSim [("A", acct0)] 1 []).run).2 =
      [mkSnapshot 1 (growthPass [("A", acct0)])] := by
    show (runMonths [] [("A", acct0)] [] (monthList 1)).2 = _
    rw [show monthList 1 = [1] from rfl, runMonths_cons, runMonths_nil]
    rfl
  have hlen : 0 < ((mkSim [("A", acct0)] 1 []).run).2.length := by
    rw [hout]
    norm_num
  exact ⟨hlen, (c5_snapshot_fields [("A", acct0)] 1 [] 0 hlen).1⟩

/-- C6: a month count of zero or below yields an empty snapshot sequence
without any error (run is total in this model); a month count of N yields
exactly N snapshots whose month fields are 1..N in increasing order (the
sequence of month fields is exactly monthList months = [1, ..., months]). -/
theorem c6_snapshot_count_and_month_fields (accounts : AccMap)
    (events : List Event) (months : Int) :
    (months ≤ 0 → ((mkSim accounts months events).run).2 = []) ∧
    ((mkSim accounts months events).run).2.length = months.toNat ∧
    ((mkSim accounts months events).run).2.map Snap.month = monthList months := by
  have hrun : ((mkSim accounts months events).run).2 =
      (runMonths events accounts [] (monthList months)).2 := rfl
  have hmap : ((mkSim accounts months events).run).2.map Snap.month =
      monthList months := by
    rw [hrun, runMonths_map_month]
    rfl
  have hlen : ((mkSim accounts months events).run).2.length = months.toNat := by
    have hl := congrArg List.length hmap
    rw [List.length_map] at hl
    rw [hl]
    simp only [monthList]
    rw [List.length_map, List.length_range]
  refine ⟨?_, hlen, hmap⟩
  intro hm
  rw [← List.length_eq_zero, hlen, Int.toNat_of_nonpos hm]

/-- C6 witness: a negative month count (-3) produces the empty snapshot
sequence. -/
theorem c6_snapshot_count_and_month_fields_witness :
    ((-3 : Int) ≤ 0) ∧ ((mkSim [("A", acct0)] (-3) []).run).2 = [] :=
  ⟨by norm_num,
    (c6_snapshot_count_and_month_fields [("A", acct0)] [] (-3)).1 (by norm_num)⟩

/-- C7: an event referencing an account name absent from the account
mapping is silently skipped: run() (total in this model, so nothing is
raised) produces exactly the snapshot sequence and final accounts of the
run with that event removed from the event list, so no account's balance
or annual_return is affected by the dangling event. -/
theorem c7_unknown_account_event_skipped (accounts : AccMap) (months : Int)
    (es₁ es₂ : List Event) (e : Event) (h : e.account ∉ keys accounts) :
    ((mkSim accounts months (es₁ ++ e :: es₂)).run).2 =
      ((mkSim accounts months (es₁ ++ es₂)).run).2 ∧
    ((mkSim accounts months (es₁ ++ e :: es₂)).run).1.accounts =
      ((mkSim accounts months (es₁ ++ es₂)).run).1.accounts := by
  have hskip := runMonths_skip e es₁ es₂ (monthList months) accounts [] h
  constructor
  · show (runMonths (es₁ ++ e :: es₂) accounts [] (monthList months)).2 = _
    rw [hskip]
    rfl
  · show (runMonths (es₁ ++ e :: es₂) accounts [] (monthList months)).1 = _
    rw [hskip]
    rfl

/-- C7 witness: a deposit event for the unknown account "B" in a mapping
holding only "A" changes neither the snapshots nor the final accounts. -/
theorem c7_unknown_account_event_skipped_witness :
    ({ month := 1, type := "deposit", account := "B", amount := 50 } :
        Event).account ∉ keys [("A", acct0)] ∧
    ((mkSim [("A", acct0)] 1
        ([] ++ ({ month := 1, type := "deposit", account := "B", amount := 50 } :
          Event) :: [])).run).2 =
      ((mkSim [("A", acct0)] 1 ([] ++ [])).run).2 :=
  ⟨by simp [keys], (c7_unknown_account_event_skipped [("A", acct0)] 1 [] []
    { month := 1, type := "deposit", account := "B", amount := 50 }
    (by simp [keys])).1⟩

/-- C8: run() is deterministic: two simulations constructed from equal
(copied) account mappings, the same month count and equal event lists
return equal snapshot sequences.  In this embedding run is a pure function
of the constructor arguments, which is exactly the absence of hidden
global state in the engine: nothing else can influence the result. -/
theorem c8_run_deterministic (a₁ a₂ : AccMap) (months : Int)
    (e₁ e₂ : List Event) (ha : a₁ = a₂) (he : e₁ = e₂) :
    ((mkSim a₁ months e₁).run).2 = ((mkSim a₂ months e₂).run).2 := by
  subst ha
  subst he
  rfl

/-- C8 witness: two runs from identical copies of a concrete one-account
input produce the same snapshot sequence. -/
theorem c8_run_deterministic_witness :
    [("A", acct0)] = [("A", acct0)] ∧
    ((mkSim [("A", acct0)] 1 []).run).2 = ((mkSim [("A", acct0)] 1 []).run).2 :=
  ⟨rfl, c8_run_deterministic [("A", acct0)] [("A", acct0)] 1 [] [] rfl rfl⟩

/-- C9 (implicit): the contribution deposit in the growth pass is guarded
by monthly_contribution > 0, so an account whose monthly_contribution is
zero or negative deposits nothing: its growth-pass result is exactly
apply_growth (the balance is only multiplied by 1 + monthly_return(), and
is never decreased by the contribution), identical in balance to the same
account with its contribution replaced by 0. -/
theorem c9_nonpositive_contribution_deposits_nothing (accs : AccMap)
    (name : String) (a : Account) (ha : List.lookup name accs = some a)
    (hc : a.monthly_contribution ≤ 0) :
    growAccount a = a.apply_growth ∧
    (growAccount a).balance = a.balance * (1 + a.monthly_return) ∧
    (growAccount { a with monthly_contribution := 0 }).balance =
      (growAccount a).balance ∧
    List.lookup name (growthPass accs) = some a.apply_growth := by
  have hg := growAccount_no_contribution a hc
  refine ⟨hg, ?_, ?_, ?_⟩
  · rw [hg]
    rfl
  · rw [growAccount_no_contribution { a with monthly_contribution := 0 } (le_refl 0), hg]
    rfl
  · rw [lookup_growthPass, ha, Option.map_some', hg]

/-- C9 witness: the guard theorem at a concrete account with the strictly
negative monthly contribution -5. -/
theorem c9_nonpositive_contribution_deposits_nothing_witness :
    List.lookup "A" [("A", acctNeg)] = some acctNeg ∧
    acctNeg.monthly_contribution ≤ 0 ∧
    growAccount acctNeg = acctNeg.apply_growth :=
  ⟨rfl, by norm_num [acctNeg],
    (c9_nonpositive_contribution_deposits_nothing [("A", acctNeg)] "A" acctNeg rfl
      (by norm_num [acctNeg])).1⟩

theorem monthList_length (months : Int) :
    (monthList months).length = months.toNat := by
  simp only [monthList]
  rw [List.length_map, List.length_range]

/-- C10 (implicit): run() does not reset self.history between calls, and
returns the whole history: calling run() a second time on the engine state
left by the first call returns 2*N snapshots, whose month fields are 1..N
followed by 1..N again, and whose second half is the run starting from the
account end-state of the first run (not a repeat of the first run's
snapshots from the original accounts). -/
theorem c10_second_run_extends_history (accounts : AccMap) (months : Int)
    (events : List Event) :
    ((((mkSim accounts months events).run).1).run).2.length = 2 * months.toNat ∧
    ((((mkSim accounts months events).run).1).run).2.map Snap.month =
      monthList months ++ monthList months ∧
    ((((mkSim accounts months events).run).1).run).2 =
      ((mkSim accounts months events).run).2 ++
        (runMonths events (((mkSim accounts months events).run).1.accounts) []
          (monthList months)).2 := by
  have key : ((((mkSim accounts months events).run).1).run).2 =
      (runMonths events (runMonths events accounts [] (monthList months)).1
        (runMonths events accounts [] (monthList months)).2 (monthList months)).2 := rfl
  have happ := runMonths_hist_append events (monthList months)
    (runMonths events accounts [] (monthList months)).1
    (runMonths events accounts [] (monthList months)).2
  have h3 : ((((mkSim accounts months events).run).1).run).2 =
      ((mkSim accounts months events).run).2 ++
        (runMonths events (((mkSim accounts months events).run).1.accounts) []
          (monthList months)).2 := by
    rw [key, happ]
    rfl
  have hm1 : ((mkSim accounts months events).run).2.map Snap.month =
      monthList months := by
    show (runMonths events accounts [] (monthList months)).2.map Snap.month = _
    rw [runMonths_map_month]
    rfl
  have hm2 : (runMonths events (((mkSim accounts months events).run).1.accounts) []
      (monthList months)).2.map Snap.month = monthList months := by
    rw [runMonths_map_month]
    rfl
  have hmap : ((((mkSim accounts months events).run).1).run).2.map Snap.month =
      monthList months ++ monthList months := by
    rw [h3, List.map_append, hm1, hm2]
  refine ⟨?_, hmap, h3⟩
  have hl := congrArg List.length hmap
  rw [List.length_map, List.length_append, monthList_length] at hl
  rw [hl]
  ring
